import Mathlib

/-!
# A fluent HTTP request builder and its one-shot response wrapper

Shallow embedding of `requests.go`.

* A Go `string` is an immutable byte sequence, a `[]byte` a byte sequence
  (`nil` and the empty slice are both `[]`: the code never compares a slice
  with `nil`).
* A Go `error` is an optional `GoError`; a Go result pair `(x, err)` is a pair.
* The builder methods mutate the receiver and return it: here they are
  functions `Request → Request`.
* `strings.ToUpper` is modelled in full: UTF-8 decoding and encoding as in
  `unicode/utf8`, and the upper-case table of `unicode`.
* The other collaborators of the standard library (JSON encoding, the HTTP
  transport with its url parser, MIME key canonicalisation) are the fields
  of an environment `Env`; what `Execute` asks of the transport is recorded
  in the trace it returns.
-/

set_option autoImplicit false
set_option linter.dupNamespace false

namespace Requests

/-! ## Go values -/

abbrev Byte := Fin 256

abbrev Bytes := List Byte

/-- A Go `string`: a sequence of bytes. The conversion `string(bytes)` is the constructor. -/
structure GoString where
  bytes : Bytes
deriving DecidableEq

/-- The Go string literal with the given text (its UTF-8 bytes). -/
def utf8 (s : String) : GoString :=
  ⟨s.data.flatMap (fun c => (String.utf8EncodeChar c).map (fun b => (b.val : Fin 256)))⟩

/-- A Go `error` value, identified by its message. -/
structure GoError where
  msg : String
deriving DecidableEq

/-- Model of `fmt.Errorf` with a constant format. -/
def Errorf (msg : String) : GoError := ⟨msg⟩

/-! ## UTF-8 (`unicode/utf8`) -/

/-- The rune `utf8.RuneError`, U+FFFD. -/
def RuneError : Nat := 0xFFFD

/-- The byte with the given value (the conversion `byte(n)`). -/
def byte (n : Nat) : Byte := Fin.ofNat n

/-- A rune that `utf8.ValidRune` accepts: at most U+10FFFF and no surrogate half. -/
def validRune (r : Nat) : Bool := Nat.ble r 0x10FFFF && !(Nat.ble 0xD800 r && Nat.ble r 0xDFFF)

/-- Model of `utf8.EncodeRune`: the UTF-8 encoding of a rune, that of `RuneError` for a rune
out of range or a surrogate half. -/
def encodeRune (r : Nat) : Bytes :=
  if r < 0x80 then [byte r]
  else if r < 0x800 then [byte (0xC0 + r / 64), byte (0x80 + r % 64)]
  else if 0x10FFFF < r ∨ (0xD800 ≤ r ∧ r ≤ 0xDFFF) then [0xEF, 0xBF, 0xBD]
  else if r < 0x10000 then
    [byte (0xE0 + r / 4096), byte (0x80 + r / 64 % 64), byte (0x80 + r % 64)]
  else
    [byte (0xF0 + r / 262144), byte (0x80 + r / 4096 % 64), byte (0x80 + r / 64 % 64),
     byte (0x80 + r % 64)]

/-- Lowest second byte that `utf8` accepts after the first byte `s0` (`acceptRanges`). -/
def acceptLo (s0 : Nat) : Nat := if s0 = 0xE0 then 0xA0 else if s0 = 0xF0 then 0x90 else 0x80

/-- Highest second byte that `utf8` accepts after the first byte `s0` (`acceptRanges`). -/
def acceptHi (s0 : Nat) : Nat := if s0 = 0xED then 0x9F else if s0 = 0xF4 then 0x8F else 0xBF

/-- Model of `utf8.DecodeRuneInString`: the first rune of the string and its width in
bytes; `(RuneError, 1)` for an encoding that is invalid or cut short, `(RuneError, 0)` for
the empty string. -/
def decodeRune : Bytes → Nat × Nat
  | [] => (RuneError, 0)
  | s0 :: rest =>
    if s0.val < 0x80 then (s0.val, 1)
    else if s0.val < 0xC2 ∨ 0xF4 < s0.val then (RuneError, 1)
    else
      match rest with
      | [] => (RuneError, 1)
      | s1 :: rest =>
        if s1.val < acceptLo s0.val ∨ acceptHi s0.val < s1.val then (RuneError, 1)
        else if s0.val < 0xE0 then (s0.val % 32 * 64 + s1.val % 64, 2)
        else
          match rest with
          | [] => (RuneError, 1)
          | s2 :: rest =>
            if s2.val < 0x80 ∨ 0xBF < s2.val then (RuneError, 1)
            else if s0.val < 0xF0 then
              (s0.val % 16 * 4096 + s1.val % 64 * 64 + s2.val % 64, 3)
            else
              match rest with
              | [] => (RuneError, 1)
              | s3 :: _ =>
                if s3.val < 0x80 ∨ 0xBF < s3.val then (RuneError, 1)
                else
                  (s0.val % 8 * 262144 + s1.val % 64 * 4096 + s2.val % 64 * 64
                    + s3.val % 64, 4)

/-- The runes of a string from a position on, `skip` bytes of the rune before still to
pass over. -/
def decodeFrom : Nat → Bytes → List Nat
  | _, [] => []
  | skip + 1, _ :: rest => decodeFrom skip rest
  | 0, b :: rest =>
    (decodeRune (b :: rest)).1 :: decodeFrom ((decodeRune (b :: rest)).2 - 1) rest

/-- The runes a `for _, c := range s` loop goes through. -/
def decodeRunes (s : Bytes) : List Nat := decodeFrom 0 s

/-! ## Upper-casing (`unicode.ToUpper`, `strings.ToUpper`) -/

/-- The upper-case mappings of the runes above U+007F: the simple upper-case mappings of
the Unicode Character Database (version 14.0.0), from which the table
`unicode.CaseRanges` is generated. An entry `(lo, hi, stride, to)` sends the runes `lo`,
`lo + stride`, ..., `hi` to `to`, `to + stride`, ... (an `UpperLower` run of the Go table
is an entry of stride 2 that sends each rune to the one before it). -/
def upperRuns : List (Nat × Nat × Nat × Nat) :=
  [(0x00B5, 0x00B5, 1, 0x039C), (0x00E0, 0x00F6, 1, 0x00C0), (0x00F8, 0x00FE, 1, 0x00D8),
   (0x00FF, 0x00FF, 1, 0x0178), (0x0101, 0x012F, 2, 0x0100), (0x0131, 0x0131, 1, 0x0049),
   (0x0133, 0x0137, 2, 0x0132), (0x013A, 0x0148, 2, 0x0139), (0x014B, 0x0177, 2, 0x014A),
   (0x017A, 0x017E, 2, 0x0179), (0x017F, 0x017F, 1, 0x0053), (0x0180, 0x0180, 1, 0x0243),
   (0x0183, 0x0185, 2, 0x0182), (0x0188, 0x0188, 1, 0x0187), (0x018C, 0x018C, 1, 0x018B),
   (0x0192, 0x0192, 1, 0x0191), (0x0195, 0x0195, 1, 0x01F6), (0x0199, 0x0199, 1, 0x0198),
   (0x019A, 0x019A, 1, 0x023D), (0x019E, 0x019E, 1, 0x0220), (0x01A1, 0x01A5, 2, 0x01A0),
   (0x01A8, 0x01A8, 1, 0x01A7), (0x01AD, 0x01AD, 1, 0x01AC), (0x01B0, 0x01B0, 1, 0x01AF),
   (0x01B4, 0x01B6, 2, 0x01B3), (0x01B9, 0x01B9, 1, 0x01B8), (0x01BD, 0x01BD, 1, 0x01BC),
   (0x01BF, 0x01BF, 1, 0x01F7), (0x01C5, 0x01C5, 1, 0x01C4), (0x01C6, 0x01C6, 1, 0x01C4),
   (0x01C8, 0x01C8, 1, 0x01C7), (0x01C9, 0x01C9, 1, 0x01C7), (0x01CB, 0x01CB, 1, 0x01CA),
   (0x01CC, 0x01CC, 1, 0x01CA), (0x01CE, 0x01DC, 2, 0x01CD), (0x01DD, 0x01DD, 1, 0x018E),
   (0x01DF, 0x01EF, 2, 0x01DE), (0x01F2, 0x01F2, 1, 0x01F1), (0x01F3, 0x01F3, 1, 0x01F1),
   (0x01F5, 0x01F5, 1, 0x01F4), (0x01F9, 0x021F, 2, 0x01F8), (0x0223, 0x0233, 2, 0x0222),
   (0x023C, 0x023C, 1, 0x023B), (0x023F, 0x0240, 1, 0x2C7E), (0x0242, 0x0242, 1, 0x0241),
   (0x0247, 0x024F, 2, 0x0246), (0x0250, 0x0250, 1, 0x2C6F), (0x0251, 0x0251, 1, 0x2C6D),
   (0x0252, 0x0252, 1, 0x2C70), (0x0253, 0x0253, 1, 0x0181), (0x0254, 0x0254, 1, 0x0186),
   (0x0256, 0x0257, 1, 0x0189), (0x0259, 0x0259, 1, 0x018F), (0x025B, 0x025B, 1, 0x0190),
   (0x025C, 0x025C, 1, 0xA7AB), (0x0260, 0x0260, 1, 0x0193), (0x0261, 0x0261, 1, 0xA7AC),
   (0x0263, 0x0263, 1, 0x0194), (0x0265, 0x0265, 1, 0xA78D), (0x0266, 0x0266, 1, 0xA7AA),
   (0x0268, 0x0268, 1, 0x0197), (0x0269, 0x0269, 1, 0x0196), (0x026A, 0x026A, 1, 0xA7AE),
   (0x026B, 0x026B, 1, 0x2C62), (0x026C, 0x026C, 1, 0xA7AD), (0x026F, 0x026F, 1, 0x019C),
   (0x0271, 0x0271, 1, 0x2C6E), (0x0272, 0x0272, 1, 0x019D), (0x0275, 0x0275, 1, 0x019F),
   (0x027D, 0x027D, 1, 0x2C64), (0x0280, 0x0280, 1, 0x01A6), (0x0282, 0x0282, 1, 0xA7C5),
   (0x0283, 0x0283, 1, 0x01A9), (0x0287, 0x0287, 1, 0xA7B1), (0x0288, 0x0288, 1, 0x01AE),
   (0x0289, 0x0289, 1, 0x0244), (0x028A, 0x028B, 1, 0x01B1), (0x028C, 0x028C, 1, 0x0245),
   (0x0292, 0x0292, 1, 0x01B7), (0x029D, 0x029D, 1, 0xA7B2), (0x029E, 0x029E, 1, 0xA7B0),
   (0x0345, 0x0345, 1, 0x0399), (0x0371, 0x0373, 2, 0x0370), (0x0377, 0x0377, 1, 0x0376),
   (0x037B, 0x037D, 1, 0x03FD), (0x03AC, 0x03AC, 1, 0x0386), (0x03AD, 0x03AF, 1, 0x0388),
   (0x03B1, 0x03C1, 1, 0x0391), (0x03C2, 0x03C2, 1, 0x03A3), (0x03C3, 0x03CB, 1, 0x03A3),
   (0x03CC, 0x03CC, 1, 0x038C), (0x03CD, 0x03CE, 1, 0x038E), (0x03D0, 0x03D0, 1, 0x0392),
   (0x03D1, 0x03D1, 1, 0x0398), (0x03D5, 0x03D5, 1, 0x03A6), (0x03D6, 0x03D6, 1, 0x03A0),
   (0x03D7, 0x03D7, 1, 0x03CF), (0x03D9, 0x03EF, 2, 0x03D8), (0x03F0, 0x03F0, 1, 0x039A),
   (0x03F1, 0x03F1, 1, 0x03A1), (0x03F2, 0x03F2, 1, 0x03F9), (0x03F3, 0x03F3, 1, 0x037F),
   (0x03F5, 0x03F5, 1, 0x0395), (0x03F8, 0x03F8, 1, 0x03F7), (0x03FB, 0x03FB, 1, 0x03FA),
   (0x0430, 0x044F, 1, 0x0410), (0x0450, 0x045F, 1, 0x0400), (0x0461, 0x0481, 2, 0x0460),
   (0x048B, 0x04BF, 2, 0x048A), (0x04C2, 0x04CE, 2, 0x04C1), (0x04CF, 0x04CF, 1, 0x04C0),
   (0x04D1, 0x052F, 2, 0x04D0), (0x0561, 0x0586, 1, 0x0531), (0x10D0, 0x10FA, 1, 0x1C90),
   (0x10FD, 0x10FF, 1, 0x1CBD), (0x13F8, 0x13FD, 1, 0x13F0), (0x1C80, 0x1C80, 1, 0x0412),
   (0x1C81, 0x1C81, 1, 0x0414), (0x1C82, 0x1C82, 1, 0x041E), (0x1C83, 0x1C84, 1, 0x0421),
   (0x1C85, 0x1C85, 1, 0x0422), (0x1C86, 0x1C86, 1, 0x042A), (0x1C87, 0x1C87, 1, 0x0462),
   (0x1C88, 0x1C88, 1, 0xA64A), (0x1D79, 0x1D79, 1, 0xA77D), (0x1D7D, 0x1D7D, 1, 0x2C63),
   (0x1D8E, 0x1D8E, 1, 0xA7C6), (0x1E01, 0x1E95, 2, 0x1E00), (0x1E9B, 0x1E9B, 1, 0x1E60),
   (0x1EA1, 0x1EFF, 2, 0x1EA0), (0x1F00, 0x1F07, 1, 0x1F08), (0x1F10, 0x1F15, 1, 0x1F18),
   (0x1F20, 0x1F27, 1, 0x1F28), (0x1F30, 0x1F37, 1, 0x1F38), (0x1F40, 0x1F45, 1, 0x1F48),
   (0x1F51, 0x1F57, 2, 0x1F59), (0x1F60, 0x1F67, 1, 0x1F68), (0x1F70, 0x1F71, 1, 0x1FBA),
   (0x1F72, 0x1F75, 1, 0x1FC8), (0x1F76, 0x1F77, 1, 0x1FDA), (0x1F78, 0x1F79, 1, 0x1FF8),
   (0x1F7A, 0x1F7B, 1, 0x1FEA), (0x1F7C, 0x1F7D, 1, 0x1FFA), (0x1F80, 0x1F87, 1, 0x1F88),
   (0x1F90, 0x1F97, 1, 0x1F98), (0x1FA0, 0x1FA7, 1, 0x1FA8), (0x1FB0, 0x1FB1, 1, 0x1FB8),
   (0x1FB3, 0x1FB3, 1, 0x1FBC), (0x1FBE, 0x1FBE, 1, 0x0399), (0x1FC3, 0x1FC3, 1, 0x1FCC),
   (0x1FD0, 0x1FD1, 1, 0x1FD8), (0x1FE0, 0x1FE1, 1, 0x1FE8), (0x1FE5, 0x1FE5, 1, 0x1FEC),
   (0x1FF3, 0x1FF3, 1, 0x1FFC), (0x214E, 0x214E, 1, 0x2132), (0x2170, 0x217F, 1, 0x2160),
   (0x2184, 0x2184, 1, 0x2183), (0x24D0, 0x24E9, 1, 0x24B6), (0x2C30, 0x2C5F, 1, 0x2C00),
   (0x2C61, 0x2C61, 1, 0x2C60), (0x2C65, 0x2C65, 1, 0x023A), (0x2C66, 0x2C66, 1, 0x023E),
   (0x2C68, 0x2C6C, 2, 0x2C67), (0x2C73, 0x2C73, 1, 0x2C72), (0x2C76, 0x2C76, 1, 0x2C75),
   (0x2C81, 0x2CE3, 2, 0x2C80), (0x2CEC, 0x2CEE, 2, 0x2CEB), (0x2CF3, 0x2CF3, 1, 0x2CF2),
   (0x2D00, 0x2D25, 1, 0x10A0), (0x2D27, 0x2D27, 1, 0x10C7), (0x2D2D, 0x2D2D, 1, 0x10CD),
   (0xA641, 0xA66D, 2, 0xA640), (0xA681, 0xA69B, 2, 0xA680), (0xA723, 0xA72F, 2, 0xA722),
   (0xA733, 0xA76F, 2, 0xA732), (0xA77A, 0xA77C, 2, 0xA779), (0xA77F, 0xA787, 2, 0xA77E),
   (0xA78C, 0xA78C, 1, 0xA78B), (0xA791, 0xA793, 2, 0xA790), (0xA794, 0xA794, 1, 0xA7C4),
   (0xA797, 0xA7A9, 2, 0xA796), (0xA7B5, 0xA7C3, 2, 0xA7B4), (0xA7C8, 0xA7CA, 2, 0xA7C7),
   (0xA7D1, 0xA7D1, 1, 0xA7D0), (0xA7D7, 0xA7D9, 2, 0xA7D6), (0xA7F6, 0xA7F6, 1, 0xA7F5),
   (0xAB53, 0xAB53, 1, 0xA7B3), (0xAB70, 0xABBF, 1, 0x13A0), (0xFF41, 0xFF5A, 1, 0xFF21),
   (0x10428, 0x1044F, 1, 0x10400), (0x104D8, 0x104FB, 1, 0x104B0), (0x10597, 0x105A1, 1, 0x10570),
   (0x105A3, 0x105B1, 1, 0x1057C), (0x105B3, 0x105B9, 1, 0x1058C), (0x105BB, 0x105BC, 1, 0x10594),
   (0x10CC0, 0x10CF2, 1, 0x10C80), (0x118C0, 0x118DF, 1, 0x118A0), (0x16E60, 0x16E7F, 1, 0x16E40),
   (0x1E922, 0x1E943, 1, 0x1E900)]

/-- The rune `r` is one of the runes of the entry `e`. -/
def inRun (r : Nat) (e : Nat × Nat × Nat × Nat) : Bool :=
  Nat.ble r e.2.1 && Nat.ble e.1 r && Nat.beq ((r - e.1) % e.2.2.1) 0

/-- Model of `unicode.ToUpper`: an ASCII letter by arithmetic, any other rune through the
table. -/
def unicodeToUpper (r : Nat) : Nat :=
  if r ≤ 127 then
    if 97 ≤ r ∧ r ≤ 122 then r - 32 else r
  else
    match upperRuns.find? (inRun r) with
    | some e => e.2.2.2 + (r - e.1)
    | none => r

/-- The check that an entry of the table has a positive stride, starts above U+007F, and
sends its runes to valid runes that `unicodeToUpper` leaves alone. -/
def runOk (e : Nat × Nat × Nat × Nat) : Bool :=
  Nat.blt 0 e.2.2.1 && Nat.blt 127 e.1 &&
  (List.range ((e.2.1 - e.1) / e.2.2.1 + 1)).all
    (fun i => Nat.beq (unicodeToUpper (e.2.2.2 + i * e.2.2.1)) (e.2.2.2 + i * e.2.2.1)
      && validRune (e.2.2.2 + i * e.2.2.1))

/-- The check `runOk` on the entries `20 * k`, ..., `20 * k + 19` of the table. -/
def chunkOk (k : Nat) : Bool := ((upperRuns.drop (20 * k)).take 20).all runOk

/-- Model of `strings.Map(mapping, s)` for a mapping without negative results: the
encodings of the mapped runes of `s`, an invalid byte of `s` counting as `RuneError`. -/
def Map (mapping : Nat → Nat) (s : GoString) : GoString :=
  ⟨(decodeRunes s.bytes).flatMap (fun c => encodeRune (mapping c))⟩

/-- Upper-case form of an ASCII byte: `c -= 'a' - 'A'` for `'a' <= c <= 'z'`. -/
def upperByte (c : Byte) : Byte :=
  if 97 ≤ c.val ∧ c.val ≤ 122 then c - 32 else c

/-- Every byte is below `utf8.RuneSelf`. -/
def isASCII (s : GoString) : Bool := s.bytes.all (fun c => decide (c.val < 128))

/-- Some byte is an ASCII lower-case letter. -/
def hasLower (s : GoString) : Bool := s.bytes.any (fun c => decide (97 ≤ c.val ∧ c.val ≤ 122))

/-- Model of `strings.ToUpper`: an ASCII string is mapped byte by byte (and returned as it
is when it has no lower-case letter); any other string is `strings.Map(unicode.ToUpper, s)`. -/
def ToUpper (s : GoString) : GoString :=
  if isASCII s then
    if !hasLower s then s else ⟨s.bytes.map upperByte⟩
  else Map unicodeToUpper s

/-! ## The transport layer (`net/http`) -/

/-- Model of `http.Header`, a `map[string][]string`, as an association list. -/
structure Header where
  entries : List (GoString × List GoString)
deriving DecidableEq

/-- The empty map `make(http.Header)`. -/
def Header.empty : Header := ⟨[]⟩

/-- The map lookup `h[k]`. -/
def Header.lookup (h : Header) (k : GoString) : Option (List GoString) :=
  (h.entries.find? (fun kv => decide (kv.1 = k))).map (fun kv => kv.2)

/-- Model of `Header.Set(key, value)`: `h[CanonicalMIMEHeaderKey(key)] = []string{value}`. -/
def Header.Set (canon : GoString → GoString) (h : Header) (key value : GoString) : Header :=
  ⟨(canon key, [value]) :: h.entries.filter (fun kv => !decide (kv.1 = canon key))⟩

/-- A parsed url (`*url.URL`), identified by its text form `URL.String()`. -/
structure URL where
  text : GoString
deriving DecidableEq

/-- The fields of `http.Request` that the builder determines. -/
structure HttpRequest where
  Method : GoString
  URL : URL
  Header : Header
  Body : Bytes
deriving DecidableEq

/-- The body stream of a response (an `io.ReadCloser`): the bytes it still delivers, the
error it ends with in place of EOF, and how often it has been drained and closed. -/
structure BodyStream where
  pending : Bytes
  failure : Option GoError
  reads : Nat
  closes : Nat
deriving DecidableEq

/-- Model of `io.ReadAll(body)`: the data read up to EOF or up to the first error, with that error. -/
def BodyStream.ReadAll (s : BodyStream) : (Bytes × Option GoError) × BodyStream :=
  ((s.pending, s.failure), { s with pending := [], reads := s.reads + 1 })

/-- Model of `body.Close()`. -/
def BodyStream.Close (s : BodyStream) : BodyStream :=
  { s with closes := s.closes + 1 }

/-- The fields of `http.Response` the wrapper exposes. -/
structure HttpResponse where
  StatusCode : Nat
  Header : Header
  Body : BodyStream
deriving DecidableEq

/-- The standard-library collaborators, for Go values (`any`) of type `Val`. -/
structure Env (Val : Type) where
  /-- The function `json.Marshal`. -/
  Marshal : Val → Except GoError Bytes
  /-- The function `json.Unmarshal(data, item)`: the item after decoding, and the decode error. -/
  Unmarshal : Bytes → Val → Val × Option GoError
  /-- The function `textproto.CanonicalMIMEHeaderKey`. -/
  canonicalKey : GoString → GoString
  /-- The error with which `http.NewRequest` rejects a method or a url. -/
  reject : GoString → GoString → Option GoError
  /-- The parsed form `url.Parse` gives a url that `http.NewRequest` accepts. -/
  parseURL : GoString → URL
  /-- The method `http.Client.Do`. -/
  Do : HttpRequest → Except GoError HttpResponse

/-- Model of `http.NewRequest(method, url, body)`: a request with the method, the parsed
url, an empty header map and the body. -/
def httpNewRequest {Val : Type} (E : Env Val) (method url : GoString) (body : Bytes) :
    Except GoError HttpRequest :=
  match E.reject method url with
  | some err => .error err
  | none =>
    .ok { Method := method, URL := E.parseURL url, Header := Header.empty, Body := body }

/-- What `Execute` asks of the transport layer. -/
inductive NetEvent where
  | newRequest (method url : GoString) (body : Bytes)
  | send (req : HttpRequest)
deriving DecidableEq

/-! ## `requests.go` -/

/-- Response represents an HTTP response along with additional metadata. -/
structure Response where
  Response : HttpResponse
  hasRead : Bool
deriving DecidableEq

/-- Request represents an HTTP request with customizable parameters. -/
structure Request where
  url : GoString
  headers : List (GoString × GoString)
  method : GoString
  body : Bytes
  err : Option GoError
deriving DecidableEq

/-- NewRequest creates a new Request with the specified method and URL. -/
def NewRequest (method url : GoString) : Request :=
  { url := url, method := ToUpper method, headers := [], body := [], err := none }

/-- Fetch returns a new GET Request for the given URL. -/
def Fetch (url : GoString) : Request :=
  NewRequest (utf8 "GET") url

/-- Header sets a single header key-value pair for the request. -/
def Request.Header (r : Request) (key value : GoString) : Request :=
  { r with headers := r.headers ++ [(key, value)] }

/-- Headers sets multiple header key-value pairs for the request. -/
def Request.Headers (r : Request) (headers : List (GoString × GoString)) : Request :=
  { r with headers := r.headers ++ headers }

/-- Method sets the HTTP method for the request. -/
def Request.Method (r : Request) (method : GoString) : Request :=
  { r with method := ToUpper method }

/-- Body sets the body content for the request. -/
def Request.Body (r : Request) (bytes : Bytes) : Request :=
  { r with body := bytes }

/-- JSON sets the request body to a JSON representation of the given content. -/
def Request.JSON {Val : Type} (E : Env Val) (r : Request) (content : Val) : Request :=
  let r := r.Header (utf8 "Content-Type") (utf8 "application/json")
  match E.Marshal content with
  | .error err => { r with err := some err }
  | .ok bytes => r.Body bytes

/-- The result pair of `Execute`, with the transport calls it made, in order. -/
structure Executed where
  response : Option Response
  err : Option GoError
  trace : List NetEvent
deriving DecidableEq

/-- Execute sends the HTTP request and returns the response. -/
def Request.Execute {Val : Type} (E : Env Val) (request : Request) : Executed :=
  match request.err with
  | some err => ⟨none, some err, []⟩
  | none =>
    let method := if request.method = utf8 "" then utf8 "GET" else request.method
    match httpNewRequest E method request.url request.body with
    | .error err => ⟨none, some err, [.newRequest method request.url request.body]⟩
    | .ok httpRequest =>
      let httpRequest := request.headers.foldl
        (fun q header => { q with Header := q.Header.Set E.canonicalKey header.1 header.2 })
        httpRequest
      match E.Do httpRequest with
      | .error err =>
        ⟨none, some err, [.newRequest method request.url request.body, .send httpRequest]⟩
      | .ok response =>
        ⟨some { Response := response, hasRead := false }, none,
          [.newRequest method request.url request.body, .send httpRequest]⟩

/-- IntoBytes reads the response body into bytes. -/
def Response.IntoBytes (response : Requests.Response) :
    (Bytes × Option GoError) × Requests.Response :=
  if response.hasRead then
    (([], some (Errorf "cannot read body multiple times")), response)
  else
    let (out, body) := response.Response.Body.ReadAll
    let response : Requests.Response :=
      { Response := { response.Response with Body := body }, hasRead := true }
    -- the deferred `response.Body.Close()`
    (out, { response with
            Response := { response.Response with Body := response.Response.Body.Close } })

/-- IntoString reads the response body into a string. -/
def Response.IntoString (response : Requests.Response) :
    (GoString × Option GoError) × Requests.Response :=
  match response.IntoBytes with
  | ((_, some err), response) => ((utf8 "", some err), response)
  | ((bytes, none), response) => ((GoString.mk bytes, none), response)

/-- FromJSON reads the response body and decodes it into the provided structure.
The result is the item after the call and the returned error. -/
def Response.FromJSON {Val : Type} (E : Env Val) (response : Requests.Response) (item : Val) :
    (Val × Option GoError) × Requests.Response :=
  match response.IntoBytes with
  | ((_, some err), response) => ((item, some err), response)
  | ((bytes, none), response) => (E.Unmarshal bytes item, response)

/-! ## A mock environment for concrete runs -/

/-- Go values for concrete runs: the map `{"a": 1}`, a channel (which `json.Marshal`
rejects) and a decoded text. -/
inductive MockValue where
  | mapA1
  | channel
  | text (s : GoString)
deriving DecidableEq

/-- The error `json.Marshal` gives for a channel. -/
def errChan : GoError := ⟨"json: unsupported type: chan int"⟩

/-- A transport failure. -/
def errDial : GoError := ⟨"dial tcp: connection refused"⟩

/-- The error of `http.NewRequest` for a method that is not a token. -/
def errMethod : GoError := ⟨"net/http: invalid method"⟩

/-- A read failure in the middle of a body. -/
def errEOF : GoError := ⟨"unexpected EOF"⟩

/-- A mock canonical form of a header key: the first letter and every letter after a
dash in upper case, every other letter in lower case. -/
def mockCanonicalKey (k : GoString) : GoString :=
  ⟨(k.bytes.foldl
      (fun (acc : Bytes × Bool) c =>
        let c : Byte :=
          if acc.2 = true ∧ 97 ≤ c.val ∧ c.val ≤ 122 then c - 32
          else if acc.2 = false ∧ 65 ≤ c.val ∧ c.val ≤ 90 then c + 32
          else c
        (acc.1 ++ [c], decide (c = 45)))
      ([], true)).1⟩

/-- Lower-case form of an ASCII byte. -/
def lowerByte (c : Byte) : Byte :=
  if 65 ≤ c.val ∧ c.val ≤ 90 then c + 32 else c

/-- A byte that `url.Parse` accepts in a scheme: a letter, a digit, `+`, `-` or `.`. -/
def isSchemeByte (c : Byte) : Bool :=
  decide ((65 ≤ c.val ∧ c.val ≤ 90) ∨ (97 ≤ c.val ∧ c.val ≤ 122) ∨ (48 ≤ c.val ∧ c.val ≤ 57)
    ∨ c.val = 43 ∨ c.val = 45 ∨ c.val = 46)

/-- A mock url parser: as `url.Parse` does, it puts the scheme (the bytes before the first
colon, when they are scheme bytes that start with a letter) in lower case; the rest of the
url is left as it is. -/
def mockParseURL (url : GoString) : URL :=
  match url.bytes.takeWhile (fun c => !decide (c = 58)) with
  | [] => ⟨url⟩
  | c :: cs =>
    if url.bytes.any (fun c => decide (c = 58)) ∧ (c :: cs).all isSchemeByte
        ∧ ((65 ≤ c.val ∧ c.val ≤ 90) ∨ (97 ≤ c.val ∧ c.val ≤ 122)) then
      ⟨⟨(c :: cs).map lowerByte ++ url.bytes.dropWhile (fun c => !decide (c = 58))⟩⟩
    else ⟨url⟩

/-- A mock environment: the transport answers every request with status 200 and the
body `hello`, `http.NewRequest` rejects a method with a space in it, and the url parser
is `mockParseURL`. -/
def mockEnv : Env MockValue where
  Marshal := fun v =>
    match v with
    | .mapA1 => .ok (utf8 "\x7b\"a\":1\x7d").bytes
    | .channel => .error errChan
    | .text s => .ok s.bytes
  Unmarshal := fun data _ => (.text ⟨data⟩, none)
  canonicalKey := mockCanonicalKey
  reject := fun method _ =>
    if method.bytes.any (fun c => decide (c = 32)) then some errMethod else none
  parseURL := mockParseURL
  Do := fun _ =>
    .ok { StatusCode := 200, Header := Header.empty,
          Body := { pending := (utf8 "hello").bytes, failure := none, reads := 0, closes := 0 } }

/-- An unread response whose body delivers `he` and then breaks. -/
def brokenResponse : Response :=
  { Response := { StatusCode := 200, Header := Header.empty,
                  Body := { pending := (utf8 "he").bytes, failure := some errEOF,
                            reads := 0, closes := 0 } },
    hasRead := false }

/-- A builder with three stored headers, two of them under one canonical key. -/
def headerRequest : Request :=
  ((Fetch (utf8 "http://x")).Header (utf8 "content-type") (utf8 "a")).Headers
    [(utf8 "X-Id", utf8 "1"), (utf8 "Content-Type", utf8 "b")]

/-- The request the transport receives from `headerRequest`. -/
def headerRequestSent : HttpRequest :=
  { Method := utf8 "GET", URL := ⟨utf8 "http://x"⟩,
    Header := ⟨[(utf8 "Content-Type", [utf8 "b"]), (utf8 "X-Id", [utf8 "1"])]⟩,
    Body := [] }

/-- The builder of `NewRequest("POST", "http://x").JSON(map{"a":1})`. -/
def jsonRequest : Request :=
  (NewRequest (utf8 "POST") (utf8 "http://x")).JSON mockEnv MockValue.mapA1

/-- The request the transport receives from `jsonRequest`. -/
def jsonRequestSent : HttpRequest :=
  { Method := utf8 "POST", URL := ⟨utf8 "http://x"⟩,
    Header := ⟨[(utf8 "Content-Type", [utf8 "application/json"])]⟩,
    Body := (utf8 "\x7b\"a\":1\x7d").bytes }

/-- A builder whose url has its scheme in upper case. -/
def upperSchemeRequest : Request := Fetch (utf8 "HTTP://X/a")

/-- The request the transport receives from `upperSchemeRequest`. -/
def upperSchemeRequestSent : HttpRequest :=
  { Method := utf8 "GET", URL := ⟨utf8 "http://X/a"⟩, Header := Header.empty, Body := [] }

/-! ## Sequences of calls -/

/-- A configuration call on a builder. -/
inductive ConfigCall (Val : Type) where
  | Header (key value : GoString)
  | Headers (headers : List (GoString × GoString))
  | Method (method : GoString)
  | Body (bytes : Bytes)
  | JSON (content : Val)

/-- The builder after one configuration call. -/
def Request.config {Val : Type} (E : Env Val) (r : Request) : ConfigCall Val → Request
  | .Header key value => r.Header key value
  | .Headers headers => r.Headers headers
  | .Method method => r.Method method
  | .Body bytes => r.Body bytes
  | .JSON content => r.JSON E content

/-- The builder after a chain of configuration calls, first call first. -/
def Request.configs {Val : Type} (E : Env Val) (r : Request) (cs : List (ConfigCall Val)) :
    Request :=
  cs.foldl (Request.config E) r

/-- The serialization error of a call, when it is a `JSON` call that fails. -/
def ConfigCall.jsonError {Val : Type} (E : Env Val) : ConfigCall Val → Option GoError
  | .JSON content =>
    match E.Marshal content with
    | .error err => some err
    | .ok _ => none
  | _ => none

/-- The serialization error of the most recent failing `JSON` call of a chain. -/
def lastJSONError {Val : Type} (E : Env Val) : List (ConfigCall Val) → Option GoError
  | [] => none
  | c :: cs =>
    match lastJSONError E cs with
    | some err => some err
    | none => c.jsonError E

/-- A call on a response wrapper. -/
inductive ResponseCall (Val : Type) where
  | IntoBytes
  | IntoString
  | FromJSON (item : Val)

/-- The response wrapper after one call. -/
def Response.call {Val : Type} (E : Env Val) (r : Requests.Response) :
    ResponseCall Val → Requests.Response
  | .IntoBytes => r.IntoBytes.2
  | .IntoString => r.IntoString.2
  | .FromJSON item => (r.FromJSON E item).2

/-- The response wrapper after a sequence of calls, first call first. -/
def Response.calls {Val : Type} (E : Env Val) (r : Requests.Response)
    (cs : List (ResponseCall Val)) : Requests.Response :=
  cs.foldl (Response.call E) r

/-! ## UTF-8 round trip -/

theorem byte_val (n : Nat) : (byte n).val = n % 256 := rfl

theorem validRune_iff (r : Nat) :
    validRune r = true ↔ r ≤ 0x10FFFF ∧ ¬ (0xD800 ≤ r ∧ r ≤ 0xDFFF) := by
  unfold validRune
  rw [Bool.and_eq_true, Bool.not_eq_true', Bool.and_eq_false_iff]
  simp only [Nat.ble_eq, ← Bool.not_eq_true, Nat.ble_eq]
  constructor
  · rintro ⟨h1, h2⟩
    exact ⟨h1, by omega⟩
  · rintro ⟨h1, h2⟩
    exact ⟨h1, by omega⟩

theorem acceptLo_spec (s0 : Nat) :
    (s0 = 0xE0 ∧ acceptLo s0 = 0xA0) ∨ (s0 = 0xF0 ∧ acceptLo s0 = 0x90)
      ∨ (s0 ≠ 0xE0 ∧ s0 ≠ 0xF0 ∧ acceptLo s0 = 0x80) := by
  unfold acceptLo
  split_ifs <;> omega

theorem acceptHi_spec (s0 : Nat) :
    (s0 = 0xED ∧ acceptHi s0 = 0x9F) ∨ (s0 = 0xF4 ∧ acceptHi s0 = 0x8F)
      ∨ (s0 ≠ 0xED ∧ s0 ≠ 0xF4 ∧ acceptHi s0 = 0xBF) := by
  unfold acceptHi
  split_ifs <;> omega

theorem dec1 (s0 : Byte) (rest : Bytes) (h0 : s0.val < 0x80) :
    decodeRune (s0 :: rest) = (s0.val, 1) := by
  simp only [decodeRune]
  rw [if_pos h0]

theorem dec2 (s0 s1 : Byte) (rest : Bytes) (h0 : 0xC2 ≤ s0.val) (h0' : s0.val < 0xE0)
    (h1 : 0x80 ≤ s1.val) (h1' : s1.val ≤ 0xBF) :
    decodeRune (s0 :: s1 :: rest) = (s0.val % 32 * 64 + s1.val % 64, 2) := by
  simp only [decodeRune]
  have hlo' := acceptLo_spec s0.val
  have hhi' := acceptHi_spec s0.val
  split_ifs <;> first | omega | rfl

theorem dec3 (s0 s1 s2 : Byte) (rest : Bytes) (h0 : 0xE0 ≤ s0.val) (h0' : s0.val < 0xF0)
    (h1 : 0x80 ≤ s1.val) (h1' : s1.val ≤ 0xBF)
    (hlo : s0.val = 0xE0 → 0xA0 ≤ s1.val) (hhi : s0.val = 0xED → s1.val ≤ 0x9F)
    (h2 : 0x80 ≤ s2.val) (h2' : s2.val ≤ 0xBF) :
    decodeRune (s0 :: s1 :: s2 :: rest)
      = (s0.val % 16 * 4096 + s1.val % 64 * 64 + s2.val % 64, 3) := by
  simp only [decodeRune]
  have hlo' := acceptLo_spec s0.val
  have hhi' := acceptHi_spec s0.val
  split_ifs <;> first | omega | rfl

theorem dec4 (s0 s1 s2 s3 : Byte) (rest : Bytes) (h0 : 0xF0 ≤ s0.val) (h0' : s0.val ≤ 0xF4)
    (h1 : 0x80 ≤ s1.val) (h1' : s1.val ≤ 0xBF)
    (hlo : s0.val = 0xF0 → 0x90 ≤ s1.val) (hhi : s0.val = 0xF4 → s1.val ≤ 0x8F)
    (h2 : 0x80 ≤ s2.val) (h2' : s2.val ≤ 0xBF) (h3 : 0x80 ≤ s3.val) (h3' : s3.val ≤ 0xBF) :
    decodeRune (s0 :: s1 :: s2 :: s3 :: rest)
      = (s0.val % 8 * 262144 + s1.val % 64 * 4096 + s2.val % 64 * 64 + s3.val % 64, 4) := by
  simp only [decodeRune]
  have hlo' := acceptLo_spec s0.val
  have hhi' := acceptHi_spec s0.val
  split_ifs <;> first | omega | rfl

theorem decodeRune_encodeRune (r : Nat) (h : validRune r = true) (rest : Bytes) :
    decodeRune (encodeRune r ++ rest) = (r, (encodeRune r).length) := by
  rw [validRune_iff] at h
  by_cases h1 : r < 0x80
  · have e : encodeRune r = [byte r] := by simp [encodeRune, h1]
    rw [e, List.singleton_append, dec1 _ _ (by rw [byte_val]; omega), byte_val]
    simp only [List.length_singleton, Prod.mk.injEq, and_true]
    omega
  by_cases h2 : r < 0x800
  · have e : encodeRune r = [byte (0xC0 + r / 64), byte (0x80 + r % 64)] := by
      simp [encodeRune, h1, h2]
    rw [e]
    simp only [List.cons_append, List.nil_append]
    rw [dec2 _ _ _ (by rw [byte_val]; omega) (by rw [byte_val]; omega)
      (by rw [byte_val]; omega) (by rw [byte_val]; omega)]
    simp only [byte_val, List.length_cons, List.length_nil, Prod.mk.injEq, and_true]
    omega
  have h3 : ¬ (0x10FFFF < r ∨ (0xD800 ≤ r ∧ r ≤ 0xDFFF)) := by omega
  by_cases h4 : r < 0x10000
  · have e : encodeRune r =
        [byte (0xE0 + r / 4096), byte (0x80 + r / 64 % 64), byte (0x80 + r % 64)] := by
      simp [encodeRune, h1, h2, h3, h4]
    rw [e]
    simp only [List.cons_append, List.nil_append]
    rw [dec3 _ _ _ _ (by rw [byte_val]; omega) (by rw [byte_val]; omega)
      (by rw [byte_val]; omega) (by rw [byte_val]; omega)
      (by rw [byte_val, byte_val]; omega) (by rw [byte_val, byte_val]; omega)
      (by rw [byte_val]; omega) (by rw [byte_val]; omega)]
    simp only [byte_val, List.length_cons, List.length_nil, Prod.mk.injEq, and_true]
    omega
  · have e : encodeRune r =
        [byte (0xF0 + r / 262144), byte (0x80 + r / 4096 % 64), byte (0x80 + r / 64 % 64),
         byte (0x80 + r % 64)] := by
      simp [encodeRune, h1, h2, h3, h4]
    rw [e]
    simp only [List.cons_append, List.nil_append]
    rw [dec4 _ _ _ _ _ (by rw [byte_val]; omega) (by rw [byte_val]; omega)
      (by rw [byte_val]; omega) (by rw [byte_val]; omega)
      (by rw [byte_val, byte_val]; omega) (by rw [byte_val, byte_val]; omega)
      (by rw [byte_val]; omega) (by rw [byte_val]; omega)
      (by rw [byte_val]; omega) (by rw [byte_val]; omega)]
    simp only [byte_val, List.length_cons, List.length_nil, Prod.mk.injEq, and_true]
    omega

theorem decodeRune_valid (s : Bytes) : validRune (decodeRune s).1 = true := by
  rw [validRune_iff]
  match s with
  | [] => simp [decodeRune, RuneError]
  | [s0] =>
    simp only [decodeRune]
    have hlo' := acceptLo_spec s0.val
    have hhi' := acceptHi_spec s0.val
    split_ifs <;> simp only [RuneError] <;> omega
  | [s0, s1] =>
    simp only [decodeRune]
    have hlo' := acceptLo_spec s0.val
    have hhi' := acceptHi_spec s0.val
    split_ifs <;> simp only [RuneError] <;> omega
  | [s0, s1, s2] =>
    simp only [decodeRune]
    have hlo' := acceptLo_spec s0.val
    have hhi' := acceptHi_spec s0.val
    split_ifs <;> simp only [RuneError] <;> omega
  | s0 :: s1 :: s2 :: s3 :: rest =>
    simp only [decodeRune]
    have hlo' := acceptLo_spec s0.val
    have hhi' := acceptHi_spec s0.val
    split_ifs <;> simp only [RuneError] <;> omega

theorem decodeRune_width (b : Byte) (rest : Bytes) : 1 ≤ (decodeRune (b :: rest)).2 := by
  match rest with
  | [] =>
    simp only [decodeRune]
    split_ifs <;> simp
  | [s1] =>
    simp only [decodeRune]
    split_ifs <;> simp
  | [s1, s2] =>
    simp only [decodeRune]
    split_ifs <;> simp
  | s1 :: s2 :: s3 :: rest =>
    simp only [decodeRune]
    split_ifs <;> simp

theorem decodeFrom_valid (s : Bytes) : ∀ skip, ∀ r ∈ decodeFrom skip s, validRune r = true := by
  induction s with
  | nil => intro skip r hr; simp [decodeFrom] at hr
  | cons b rest ih =>
    intro skip r hr
    cases skip with
    | zero =>
      simp only [decodeFrom, List.mem_cons] at hr
      rcases hr with rfl | hr
      · exact decodeRune_valid _
      · exact ih _ r hr
    | succ k =>
      simp only [decodeFrom] at hr
      exact ih _ r hr

theorem decodeFrom_skip (pre rest : Bytes) :
    decodeFrom pre.length (pre ++ rest) = decodeFrom 0 rest := by
  induction pre with
  | nil => rfl
  | cons b pre ih => simpa [decodeFrom] using ih

theorem decodeRunes_encodeRune (r : Nat) (h : validRune r = true) (rest : Bytes) :
    decodeRunes (encodeRune r ++ rest) = r :: decodeRunes rest := by
  have hd := decodeRune_encodeRune r h rest
  unfold decodeRunes
  cases he : encodeRune r with
  | nil =>
    exfalso
    revert he
    unfold encodeRune
    split_ifs <;> simp
  | cons b pre =>
    rw [he] at hd
    simp only [List.cons_append] at hd ⊢
    simp only [decodeFrom, hd, List.length_cons, Nat.add_sub_cancel]
    rw [decodeFrom_skip]

theorem decodeRunes_flatMap_encodeRune (rs : List Nat) (h : ∀ r ∈ rs, validRune r = true) :
    decodeRunes (rs.flatMap encodeRune) = rs := by
  induction rs with
  | nil => rfl
  | cons r rs ih =>
    rw [List.flatMap_cons, decodeRunes_encodeRune r (h r (List.mem_cons_self _ _)),
      ih (fun x hx => h x (List.mem_cons_of_mem _ hx))]

/-! ## Upper-casing -/

theorem chunkOk_0 : chunkOk 0 = true := by decide!

theorem chunkOk_1 : chunkOk 1 = true := by decide!

theorem chunkOk_2 : chunkOk 2 = true := by decide!

theorem chunkOk_3 : chunkOk 3 = true := by decide!

theorem chunkOk_4 : chunkOk 4 = true := by decide!

theorem chunkOk_5 : chunkOk 5 = true := by decide!

theorem chunkOk_6 : chunkOk 6 = true := by decide!

theorem chunkOk_7 : chunkOk 7 = true := by decide!

theorem chunkOk_8 : chunkOk 8 = true := by decide!

theorem chunkOk_9 : chunkOk 9 = true := by decide!

theorem mem_chunk {α : Type} (l : List α) (e : α) (he : e ∈ l) (n : Nat) (hn : 0 < n) :
    ∃ k, n * k < l.length ∧ e ∈ (l.drop (n * k)).take n := by
  obtain ⟨i, hi⟩ := List.mem_iff_getElem?.mp he
  have hlt : i < l.length := by
    by_contra hge
    rw [List.getElem?_eq_none (Nat.le_of_not_lt hge)] at hi
    exact absurd hi (by simp)
  refine ⟨i / n, ?_, List.mem_iff_getElem?.mpr ⟨i % n, ?_⟩⟩
  · have := Nat.mul_div_le i n
    omega
  · rw [List.getElem?_take_of_lt (Nat.mod_lt i hn), List.getElem?_drop, Nat.div_add_mod]
    exact hi

theorem upperRuns_ok : upperRuns.all runOk = true := by
  rw [List.all_eq_true]
  intro e he
  obtain ⟨k, hk, hmem⟩ := mem_chunk upperRuns e he 20 (by omega)
  have hlen : upperRuns.length = 199 := by rfl
  rw [hlen] at hk
  have hk10 : k < 10 := by omega
  have hchunk : chunkOk k = true := by
    interval_cases k
    · exact chunkOk_0
    · exact chunkOk_1
    · exact chunkOk_2
    · exact chunkOk_3
    · exact chunkOk_4
    · exact chunkOk_5
    · exact chunkOk_6
    · exact chunkOk_7
    · exact chunkOk_8
    · exact chunkOk_9
  exact List.all_eq_true.mp hchunk e hmem

theorem run_point (r : Nat) (e : Nat × Nat × Nat × Nat) (he : e ∈ upperRuns)
    (hr : inRun r e = true) :
    unicodeToUpper (e.2.2.2 + (r - e.1)) = e.2.2.2 + (r - e.1)
    ∧ validRune (e.2.2.2 + (r - e.1)) = true := by
  have hok := List.all_eq_true.mp upperRuns_ok e he
  simp only [runOk, Bool.and_eq_true, List.all_eq_true, List.mem_range, Nat.blt_eq,
    Nat.beq_eq_true_eq] at hok
  obtain ⟨⟨hs, _⟩, hall⟩ := hok
  simp only [inRun, Bool.and_eq_true, Nat.ble_eq, Nat.beq_eq_true_eq] at hr
  obtain ⟨⟨hhi, hlo⟩, hmod⟩ := hr
  have hdiv : (r - e.1) / e.2.2.1 * e.2.2.1 = r - e.1 :=
    Nat.div_mul_cancel (Nat.dvd_of_mod_eq_zero (Nat.eq_of_beq_eq_true hmod))
  have hidx : (r - e.1) / e.2.2.1 < (e.2.1 - e.1) / e.2.2.1 + 1 :=
    Nat.lt_succ_of_le (Nat.div_le_div_right (by omega))
  have := hall _ hidx
  rw [hdiv] at this
  exact ⟨Nat.eq_of_beq_eq_true this.1, this.2⟩

theorem unicodeToUpper_idem (r : Nat) : unicodeToUpper (unicodeToUpper r) = unicodeToUpper r := by
  by_cases h : r ≤ 127
  · unfold unicodeToUpper
    rw [if_pos h]
    split_ifs <;> omega
  · have hdef : unicodeToUpper r =
        match upperRuns.find? (inRun r) with
        | some e => e.2.2.2 + (r - e.1)
        | none => r := by
      unfold unicodeToUpper
      rw [if_neg h]
    cases hf : upperRuns.find? (inRun r) with
    | none =>
      rw [hf] at hdef
      rw [hdef]
      exact hdef
    | some e =>
      rw [hf] at hdef
      rw [hdef]
      exact (run_point r e (List.mem_of_find?_eq_some hf) (List.find?_some hf)).1

theorem unicodeToUpper_valid (r : Nat) (hv : validRune r = true) :
    validRune (unicodeToUpper r) = true := by
  by_cases h : r ≤ 127
  · rw [validRune_iff]
    unfold unicodeToUpper
    rw [if_pos h]
    split_ifs <;> omega
  · have hdef : unicodeToUpper r =
        match upperRuns.find? (inRun r) with
        | some e => e.2.2.2 + (r - e.1)
        | none => r := by
      unfold unicodeToUpper
      rw [if_neg h]
    cases hf : upperRuns.find? (inRun r) with
    | none =>
      rw [hf] at hdef
      rw [hdef]
      exact hv
    | some e =>
      rw [hf] at hdef
      rw [hdef]
      exact (run_point r e (List.mem_of_find?_eq_some hf) (List.find?_some hf)).2

theorem flatMap_encode_map (f : Nat → Nat) (l : List Nat) :
    l.flatMap (fun c => encodeRune (f c)) = (l.map f).flatMap encodeRune := by
  induction l with
  | nil => rfl
  | cons c l ih => rw [List.flatMap_cons, List.map_cons, List.flatMap_cons, ih]

theorem Map_unicodeToUpper_idem (s : GoString) :
    Map unicodeToUpper (Map unicodeToUpper s) = Map unicodeToUpper s := by
  have hv : ∀ r ∈ (decodeRunes s.bytes).map unicodeToUpper, validRune r = true := by
    intro r hr
    rw [List.mem_map] at hr
    obtain ⟨c, hc, rfl⟩ := hr
    exact unicodeToUpper_valid c (decodeFrom_valid _ 0 c hc)
  have hm : ((decodeRunes s.bytes).map unicodeToUpper).map unicodeToUpper
      = (decodeRunes s.bytes).map unicodeToUpper := by
    rw [List.map_map]
    apply List.map_congr_left
    intro c _
    exact unicodeToUpper_idem c
  unfold Map
  congr 1
  show (decodeRunes ((decodeRunes s.bytes).flatMap
      (fun c => encodeRune (unicodeToUpper c)))).flatMap
        (fun c => encodeRune (unicodeToUpper c)) = _
  rw [flatMap_encode_map unicodeToUpper (decodeRunes s.bytes),
    decodeRunes_flatMap_encodeRune _ hv, flatMap_encode_map, hm]

theorem upperByte_val (c : Byte) :
    (upperByte c).val = if 97 ≤ c.val ∧ c.val ≤ 122 then c.val - 32 else c.val := by
  unfold upperByte
  split
  · rename_i h
    have h32 : ((32 : Byte) : Nat) = 32 := rfl
    rw [Fin.sub_def]
    simp only [h32]
    omega
  · rfl

theorem map_upperByte_of_not_hasLower (bs : Bytes)
    (h : bs.any (fun c => decide (97 ≤ c.val ∧ c.val ≤ 122)) = false) :
    bs.map upperByte = bs := by
  induction bs with
  | nil => rfl
  | cons b bs ih =>
    simp only [List.any_cons, Bool.or_eq_false_iff, decide_eq_false_iff_not] at h
    rw [List.map_cons, ih h.2]
    congr 1
    apply Fin.ext
    rw [upperByte_val, if_neg h.1]

theorem Map_ascii (bs : Bytes) (h : bs.all (fun c => decide (c.val < 128)) = true) :
    (decodeRunes bs).flatMap (fun c => encodeRune (unicodeToUpper c)) = bs.map upperByte := by
  induction bs with
  | nil => rfl
  | cons b bs ih =>
    simp only [List.all_cons, Bool.and_eq_true, decide_eq_true_eq] at h
    have hd : decodeRunes (b :: bs) = b.val :: decodeRunes bs := by
      simp only [decodeRunes, decodeFrom, dec1 b bs h.1]
    have hu : unicodeToUpper b.val = (upperByte b).val := by
      rw [upperByte_val]
      unfold unicodeToUpper
      rw [if_pos (by omega)]
    have hlt : (upperByte b).val < 0x80 := by
      rw [upperByte_val]
      split_ifs <;> omega
    have he : encodeRune (upperByte b).val = [upperByte b] := by
      unfold encodeRune
      rw [if_pos hlt]
      congr 1
      apply Fin.ext
      rw [byte_val]
      omega
    rw [hd, List.flatMap_cons, hu, he, ih h.2]
    rfl

/-- The ASCII fast path of `strings.ToUpper` agrees with the general path. -/
theorem ToUpper_eq_Map (s : GoString) : ToUpper s = Map unicodeToUpper s := by
  unfold ToUpper
  by_cases ha : isASCII s = true
  · rw [if_pos ha]
    have hm : Map unicodeToUpper s = ⟨s.bytes.map upperByte⟩ := by
      unfold Map
      rw [Map_ascii s.bytes ha]
    rw [hm]
    by_cases hl : hasLower s = true
    · simp [hl]
    · simp only [Bool.not_eq_true] at hl
      simp only [hl, Bool.not_false, if_true]
      rw [map_upperByte_of_not_hasLower s.bytes hl]
  · rw [if_neg ha]

theorem ToUpper_idem (s : GoString) : ToUpper (ToUpper s) = ToUpper s := by
  rw [ToUpper_eq_Map (ToUpper s), ToUpper_eq_Map s, Map_unicodeToUpper_idem]


/-- The upper-case form of `é` (bytes C3 A9) is `É` (bytes C3 89). -/
theorem ToUpper_e_acute : ToUpper ⟨[195, 169]⟩ = ⟨[195, 137]⟩ := by decide

/-! ## The builder: construction and method -/

/-- C9: `NewRequest(m, u)` has url `u`, method `ToUpper(m)`, no header, an empty body and
no deferred error; `Fetch(u)` is `NewRequest("GET", u)` and its method is `GET`; `Method(m)`
changes the method field only, to `ToUpper(m)`, so a second `Method` call makes the first
one irrelevant; and for every method string the stored method is a fixed point of
`ToUpper`. -/
theorem newRequest_fetch_method (r : Request) (m a b u : GoString) :
    NewRequest m u =
        { url := u, method := ToUpper m, headers := [], body := [], err := none }
    ∧ Fetch u = NewRequest (utf8 "GET") u
    ∧ (Fetch u).method = utf8 "GET"
    ∧ r.Method m = { r with method := ToUpper m }
    ∧ (r.Method a).Method b = r.Method b
    ∧ ToUpper (NewRequest m u).method = (NewRequest m u).method
    ∧ ToUpper (r.Method m).method = (r.Method m).method := by
  refine ⟨rfl, rfl, ?_, rfl, rfl, ToUpper_idem m, ToUpper_idem m⟩
  have h : ToUpper (utf8 "GET") = utf8 "GET" := by decide
  exact h

/-! ## The deferred error -/

/-- C1: a builder whose deferred-error slot holds `e` makes `Execute` return no response
and the error `e`, with no call to the transport layer, whatever its url, method, headers
and body are. -/
theorem execute_deferred_error {Val : Type} (E : Env Val) (r : Request) (e : GoError)
    (h : r.err = some e) :
    r.Execute E = { response := none, err := some e, trace := [] } := by
  simp [Request.Execute, h]

theorem execute_deferred_error_witness :
    ((NewRequest (utf8 "POST") (utf8 "http://x")).JSON mockEnv MockValue.channel).err
        = some errChan
    ∧ ((NewRequest (utf8 "POST") (utf8 "http://x")).JSON mockEnv
          MockValue.channel).Execute mockEnv
        = { response := none, err := some errChan, trace := [] } :=
  ⟨by decide, execute_deferred_error mockEnv _ errChan (by decide)⟩

/-- C6: when the serialization of `v` fails with `e`, `JSON(v)` returns the builder with
the pair `(Content-Type, application/json)` appended to the headers and the deferred
error set to `e`; body, url and method are what they were (the body of a fresh builder
stays empty). -/
theorem json_failure {Val : Type} (E : Env Val) (r : Request) (v : Val) (e : GoError)
    (m u : GoString) (h : E.Marshal v = .error e) :
    r.JSON E v =
        { r with headers := r.headers ++ [(utf8 "Content-Type", utf8 "application/json")],
                 err := some e }
    ∧ (r.JSON E v).body = r.body
    ∧ (r.JSON E v).url = r.url
    ∧ (r.JSON E v).method = r.method
    ∧ ((NewRequest m u).JSON E v).body = [] := by
  simp [Request.JSON, Request.Header, NewRequest, h]

theorem json_failure_witness :
    mockEnv.Marshal MockValue.channel = .error errChan
    ∧ ((Fetch (utf8 "http://x")).Body [1, 2]).JSON mockEnv MockValue.channel =
        { url := utf8 "http://x", method := utf8 "GET",
          headers := [(utf8 "Content-Type", utf8 "application/json")], body := [1, 2],
          err := some errChan } := by
  refine ⟨rfl, ?_⟩
  rw [(json_failure mockEnv ((Fetch (utf8 "http://x")).Body [1, 2]) MockValue.channel
    errChan (utf8 "GET") (utf8 "http://x") rfl).1]
  decide

/-! ## The response wrapper -/

theorem intoBytes_unread (r : Response) (h : r.hasRead = false) :
    r.IntoBytes =
      ((r.Response.Body.pending, r.Response.Body.failure),
        { Response := { r.Response with
            Body := { r.Response.Body with pending := [],
                                           reads := r.Response.Body.reads + 1,
                                           closes := r.Response.Body.closes + 1 } },
          hasRead := true }) := by
  simp [Response.IntoBytes, h, BodyStream.ReadAll, BodyStream.Close]

theorem intoBytes_read (r : Response) (h : r.hasRead = true) :
    r.IntoBytes = (([], some (Errorf "cannot read body multiple times")), r) := by
  simp [Response.IntoBytes, h]

theorem intoBytes_sets_hasRead (r : Response) : r.IntoBytes.2.hasRead = true := by
  unfold Response.IntoBytes
  split <;> simp_all

/-- C2: after one call of `IntoBytes` (on a response in any state, and whether or not that
call gave a read error) a second call returns no bytes and the double-read error, and
leaves the response as it was: `hasRead` stays true and the body stream is neither read
nor closed again. -/
theorem intoBytes_twice (r : Response) :
    r.IntoBytes.2.IntoBytes =
        (([], some (Errorf "cannot read body multiple times")), r.IntoBytes.2)
    ∧ r.IntoBytes.2.hasRead = true
    ∧ r.IntoBytes.2.IntoBytes.2.Response.Body.reads = r.IntoBytes.2.Response.Body.reads
    ∧ r.IntoBytes.2.IntoBytes.2.Response.Body.closes = r.IntoBytes.2.Response.Body.closes := by
  have h2 := intoBytes_read r.IntoBytes.2 (intoBytes_sets_hasRead r)
  exact ⟨h2, intoBytes_sets_hasRead r, by rw [h2], by rw [h2]⟩

theorem intoString_state (r : Response) : r.IntoString.2 = r.IntoBytes.2 := by
  unfold Response.IntoString
  split <;> simp_all

theorem fromJSON_state {Val : Type} (E : Env Val) (r : Response) (item : Val) :
    (r.FromJSON E item).2 = r.IntoBytes.2 := by
  unfold Response.FromJSON
  split <;> simp_all

theorem call_state {Val : Type} (E : Env Val) (r : Response) (c : ResponseCall Val) :
    r.call E c = r.IntoBytes.2 := by
  cases c
  · rfl
  · exact intoString_state r
  · exact fromJSON_state E r _

theorem calls_read {Val : Type} (E : Env Val) (cs : List (ResponseCall Val)) (r : Response)
    (h : r.hasRead = true) : r.calls E cs = r := by
  induction cs with
  | nil => rfl
  | cons c cs ih =>
    have hc : r.call E c = r := by rw [call_state, intoBytes_read r h]
    simp only [Response.calls, List.foldl_cons, hc]
    exact ih

/-- C7: on an unread response one `IntoBytes` call returns what the stream delivers (data
and read error alike), sets `hasRead`, reads the stream once and closes it once, whether
the read fails or not; no call takes `hasRead` from true to false (a call on a read
response changes nothing); and over any sequence of calls the stream is read at most
once, exactly once as soon as there is a call. -/
theorem hasRead_one_way {Val : Type} (E : Env Val) (r : Response)
    (cs : List (ResponseCall Val)) (h : r.hasRead = false) :
    r.IntoBytes.1 = (r.Response.Body.pending, r.Response.Body.failure)
    ∧ r.IntoBytes.2.hasRead = true
    ∧ r.IntoBytes.2.Response.Body.reads = r.Response.Body.reads + 1
    ∧ r.IntoBytes.2.Response.Body.closes = r.Response.Body.closes + 1
    ∧ (∀ (c : ResponseCall Val) (r0 : Response), r0.hasRead = true →
        (r0.call E c).hasRead = true ∧ r0.call E c = r0)
    ∧ (∀ (c : ResponseCall Val) (r0 : Response), (r0.call E c).hasRead = true)
    ∧ (r.calls E cs).Response.Body.reads ≤ r.Response.Body.reads + 1
    ∧ (cs ≠ [] → (r.calls E cs).hasRead = true
        ∧ (r.calls E cs).Response.Body.reads = r.Response.Body.reads + 1
        ∧ (r.calls E cs).Response.Body.closes = r.Response.Body.closes + 1) := by
  have hall : ∀ (c : ResponseCall Val) (r0 : Response), (r0.call E c).hasRead = true := by
    intro c r0
    rw [call_state]
    exact intoBytes_sets_hasRead r0
  have hne : cs ≠ [] → r.calls E cs = r.IntoBytes.2 := by
    intro hcs
    cases cs with
    | nil => exact absurd rfl hcs
    | cons c cs =>
      have := calls_read E cs (r.call E c) (hall c r)
      simp only [Response.calls, List.foldl_cons] at this ⊢
      rw [this, call_state]
  refine ⟨?_, ?_, ?_, ?_, ?_, hall, ?_, ?_⟩
  · rw [intoBytes_unread r h]
  · rw [intoBytes_unread r h]
  · rw [intoBytes_unread r h]
  · rw [intoBytes_unread r h]
  · intro c r0 h0
    rw [call_state, intoBytes_read r0 h0]
    exact ⟨h0, rfl⟩
  · by_cases hcs : cs = []
    · subst hcs
      simp [Response.calls]
    · rw [hne hcs, intoBytes_unread r h]
  · intro hcs
    rw [hne hcs, intoBytes_unread r h]
    exact ⟨rfl, rfl, rfl⟩

theorem hasRead_one_way_witness :
    brokenResponse.hasRead = false
    ∧ brokenResponse.IntoBytes.1 = ((utf8 "he").bytes, some errEOF)
    ∧ (brokenResponse.calls mockEnv
          [.IntoString, .IntoBytes, .FromJSON MockValue.mapA1]).Response.Body.reads = 1
    ∧ (brokenResponse.calls mockEnv
          [.IntoString, .IntoBytes, .FromJSON MockValue.mapA1]).Response.Body.closes = 1 := by
  have h := hasRead_one_way mockEnv brokenResponse
    [.IntoString, .IntoBytes, .FromJSON MockValue.mapA1] rfl
  exact ⟨rfl, h.1, (h.2.2.2.2.2.2.2 (by simp)).2.1, (h.2.2.2.2.2.2.2 (by simp)).2.2⟩

/-- C8, as stated, fails: on an unread response whose stream delivers `he` and then breaks,
`IntoBytes` returns the bytes `he` with the read error, and `IntoString` returns the empty
string with that error, not the string `he`. -/
theorem intoString_drops_bytes_on_error :
    brokenResponse.hasRead = false
    ∧ brokenResponse.IntoBytes.1 = ((utf8 "he").bytes, some errEOF)
    ∧ brokenResponse.IntoString.1 = (utf8 "", some errEOF)
    ∧ brokenResponse.IntoString.1
        ≠ (GoString.mk brokenResponse.IntoBytes.1.1, brokenResponse.IntoBytes.1.2) := by
  decide

/-- C8, amended: `IntoString` returns the error `IntoBytes` returns and leaves the response
in the state `IntoBytes` leaves it in; when that error is nil its string is made of exactly
the bytes `IntoBytes` returns, and when it is not nil (read error, or body already consumed)
its string is empty. An unread response whose stream ends without error gives the string of
the stream's bytes and no error. -/
theorem intoString_of_intoBytes (r : Response) :
    r.IntoString.1.2 = r.IntoBytes.1.2
    ∧ r.IntoString.2 = r.IntoBytes.2
    ∧ r.IntoString.1.1 =
        (if r.IntoBytes.1.2.isNone then GoString.mk r.IntoBytes.1.1 else utf8 "")
    ∧ (r.hasRead = false → r.Response.Body.failure = none →
        r.IntoString.1 = (GoString.mk r.Response.Body.pending, none)) := by
  refine ⟨?_, intoString_state r, ?_, ?_⟩
  · unfold Response.IntoString
    split <;> simp_all
  · unfold Response.IntoString
    split <;> simp_all
  · intro h hf
    simp [Response.IntoString, intoBytes_unread r h, hf]

theorem intoString_of_intoBytes_witness :
    ((Fetch (utf8 "http://x/1")).Execute mockEnv).response.map
        (fun r => r.IntoString.1) = some (utf8 "hello", none) := by
  have h : ((Fetch (utf8 "http://x/1")).Execute mockEnv).response
      = some { Response :=
                 { StatusCode := 200, Header := Header.empty,
                   Body := { pending := (utf8 "hello").bytes, failure := none,
                             reads := 0, closes := 0 } },
               hasRead := false } := by
    decide
  rw [h]
  simp only [Option.map_some']
  rw [(intoString_of_intoBytes _).2.2.2 rfl rfl]

/-! ## Execute: the transport request -/

theorem find_filter_other (ck k : GoString) (hk : ¬ ck = k)
    (es : List (GoString × List GoString)) :
    (es.filter (fun kv => !decide (kv.1 = ck))).find? (fun kv => decide (kv.1 = k)) =
      es.find? (fun kv => decide (kv.1 = k)) := by
  rw [List.find?_filter]
  congr 1
  funext a
  by_cases h : a.1 = k
  · have h1 : ¬ a.1 = ck := fun h1 => hk (h1 ▸ h)
    simp [h, h1]
    exact fun h2 => hk h2.symm
  · simp [h]

theorem lookup_Set (canon : GoString → GoString) (h : Header) (key value k : GoString) :
    (h.Set canon key value).lookup k =
      if canon key = k then some [value] else h.lookup k := by
  by_cases hk : canon key = k
  · simp [Header.Set, Header.lookup, hk]
  · simp only [Header.Set, Header.lookup, hk, if_false, List.find?_cons, decide_False]
    rw [find_filter_other (canon key) k hk]

theorem lookup_foldl_Set (canon : GoString → GoString) (k : GoString)
    (hs : List (GoString × GoString)) (h0 : Header) :
    (hs.foldl (fun hd p => hd.Set canon p.1 p.2) h0).lookup k =
      match hs.reverse.find? (fun p => decide (canon p.1 = k)) with
      | some p => some [p.2]
      | none => h0.lookup k := by
  induction hs generalizing h0 with
  | nil => rfl
  | cons p ps ih =>
    rw [List.foldl_cons, ih, List.reverse_cons, List.find?_append]
    cases hf : ps.reverse.find? (fun p => decide (canon p.1 = k)) with
    | some q => simp
    | none =>
      by_cases hk : canon p.1 = k
      · simp [lookup_Set, hk]
      · simp [lookup_Set, hk]

theorem foldl_Set_fields (canon : GoString → GoString) (hs : List (GoString × GoString))
    (q : HttpRequest) :
    hs.foldl (fun q header => { q with Header := q.Header.Set canon header.1 header.2 }) q =
      { q with Header := hs.foldl (fun hd p => hd.Set canon p.1 p.2) q.Header } := by
  induction hs generalizing q with
  | nil => rfl
  | cons p ps ih => rw [List.foldl_cons, ih]; rfl

/-- The transport request `Execute` builds from a builder: method (GET for an empty one),
url and body as stored, and the stored headers set one after the other. -/
theorem execute_cases {Val : Type} (E : Env Val) (r : Request) (h : r.err = none) :
    r.Execute E =
      match E.reject (if r.method = utf8 "" then utf8 "GET" else r.method) r.url with
      | some e =>
        { response := none, err := some e,
          trace := [.newRequest (if r.method = utf8 "" then utf8 "GET" else r.method)
                      r.url r.body] }
      | none =>
        match E.Do { Method := if r.method = utf8 "" then utf8 "GET" else r.method,
                     URL := E.parseURL r.url,
                     Header := r.headers.foldl (fun hd p => hd.Set E.canonicalKey p.1 p.2)
                                 Header.empty,
                     Body := r.body } with
        | .error e =>
          { response := none, err := some e,
            trace := [.newRequest (if r.method = utf8 "" then utf8 "GET" else r.method)
                        r.url r.body,
                      .send { Method := if r.method = utf8 "" then utf8 "GET" else r.method,
                              URL := E.parseURL r.url,
                              Header := r.headers.foldl
                                (fun hd p => hd.Set E.canonicalKey p.1 p.2) Header.empty,
                              Body := r.body }] }
        | .ok resp =>
          { response := some { Response := resp, hasRead := false }, err := none,
            trace := [.newRequest (if r.method = utf8 "" then utf8 "GET" else r.method)
                        r.url r.body,
                      .send { Method := if r.method = utf8 "" then utf8 "GET" else r.method,
                              URL := E.parseURL r.url,
                              Header := r.headers.foldl
                                (fun hd p => hd.Set E.canonicalKey p.1 p.2) Header.empty,
                              Body := r.body }] } := by
  unfold Request.Execute
  simp only [h, httpNewRequest]
  cases hrej : E.reject (if r.method = utf8 "" then utf8 "GET" else r.method) r.url with
  | some e => rfl
  | none =>
    simp only [foldl_Set_fields]

/-- The calls of `http.NewRequest` in the trace of `Execute` carry the builder's state. -/
theorem trace_newRequest {Val : Type} (E : Env Val) (r : Request) (h : r.err = none)
    (m u : GoString) (b : Bytes) (hm : NetEvent.newRequest m u b ∈ (r.Execute E).trace) :
    m = (if r.method = utf8 "" then utf8 "GET" else r.method) ∧ u = r.url ∧ b = r.body := by
  rw [execute_cases E r h] at hm
  cases hrej : E.reject (if r.method = utf8 "" then utf8 "GET" else r.method) r.url with
  | some e => simpa [hrej] using hm
  | none =>
    rw [hrej] at hm
    cases hdo : E.Do { Method := (if r.method = utf8 "" then utf8 "GET" else r.method), URL := E.parseURL r.url,
                       Header := r.headers.foldl
                         (fun hd p => hd.Set E.canonicalKey p.1 p.2) Header.empty,
                       Body := r.body } with
    | error e => simpa [hdo] using hm
    | ok resp => simpa [hdo] using hm

/-- The request in the trace of `Execute` is the one built from the builder's state. -/
theorem trace_send {Val : Type} (E : Env Val) (r : Request) (h : r.err = none)
    (req : HttpRequest) (hm : NetEvent.send req ∈ (r.Execute E).trace) :
    req = { Method := (if r.method = utf8 "" then utf8 "GET" else r.method), URL := E.parseURL r.url,
            Header := r.headers.foldl (fun hd p => hd.Set E.canonicalKey p.1 p.2)
                        Header.empty,
            Body := r.body } := by
  rw [execute_cases E r h] at hm
  cases hrej : E.reject (if r.method = utf8 "" then utf8 "GET" else r.method) r.url with
  | some e => simp [hrej] at hm
  | none =>
    rw [hrej] at hm
    cases hdo : E.Do { Method := (if r.method = utf8 "" then utf8 "GET" else r.method), URL := E.parseURL r.url,
                       Header := r.headers.foldl
                         (fun hd p => hd.Set E.canonicalKey p.1 p.2) Header.empty,
                       Body := r.body } with
    | error e => simpa [hdo] using hm
    | ok resp => simpa [hdo] using hm

/-- When `http.NewRequest` accepts method and url, `Execute` makes both transport calls. -/
theorem trace_accepted {Val : Type} (E : Env Val) (r : Request) (h : r.err = none)
    (hrej : E.reject (if r.method = utf8 "" then utf8 "GET" else r.method) r.url = none) :
    (r.Execute E).trace =
      [.newRequest (if r.method = utf8 "" then utf8 "GET" else r.method) r.url r.body,
       .send { Method := (if r.method = utf8 "" then utf8 "GET" else r.method), URL := E.parseURL r.url,
               Header := r.headers.foldl (fun hd p => hd.Set E.canonicalKey p.1 p.2)
                           Header.empty,
               Body := r.body }] := by
  rw [execute_cases E r h, hrej]
  cases E.Do { Method := (if r.method = utf8 "" then utf8 "GET" else r.method), URL := E.parseURL r.url,
               Header := r.headers.foldl
                 (fun hd p => hd.Set E.canonicalKey p.1 p.2) Header.empty,
               Body := r.body } with
  | error e => rfl
  | ok resp => rfl

/-- C3, as stated, fails: for the builder of `Fetch("HTTP://X/a")`, which has no deferred
error, the request the transport receives has the url `http://X/a`, the parsed form of the
stored string with the scheme in lower case, and not the stored string `HTTP://X/a`. -/
theorem execute_url_not_stored_string :
    upperSchemeRequest.err = none
    ∧ upperSchemeRequest.url = utf8 "HTTP://X/a"
    ∧ NetEvent.send upperSchemeRequestSent ∈ (upperSchemeRequest.Execute mockEnv).trace
    ∧ upperSchemeRequestSent.URL.text = utf8 "http://X/a"
    ∧ upperSchemeRequestSent.URL.text ≠ upperSchemeRequest.url
    ∧ ¬ (∀ req, NetEvent.send req ∈ (upperSchemeRequest.Execute mockEnv).trace →
          req.URL.text = upperSchemeRequest.url) := by
  have hmem : NetEvent.send upperSchemeRequestSent
      ∈ (upperSchemeRequest.Execute mockEnv).trace := by decide
  have hne : upperSchemeRequestSent.URL.text ≠ upperSchemeRequest.url := by decide
  exact ⟨rfl, by decide, hmem, rfl, hne, fun h => hne (h _ hmem)⟩

/-- C3, amended: for a builder with no deferred error, `Execute` calls `http.NewRequest`
with the stored url and body and with the stored method, `GET` standing in for an empty
one, and the request it sends has that method, that body, and as url the parsed form of
the stored url; when the transport answers, the result is a wrapper of that answer with
`hasRead = false` and no error, and when the transport fails (in `http.NewRequest` or in
`Do`) the result is that error and no response. -/
theorem execute_sends_builder_state {Val : Type} (E : Env Val) (r : Request)
    (h : r.err = none) :
    (∀ m u b, NetEvent.newRequest m u b ∈ (r.Execute E).trace →
        m = (if r.method = utf8 "" then utf8 "GET" else r.method) ∧ u = r.url ∧ b = r.body)
    ∧ (∀ req, NetEvent.send req ∈ (r.Execute E).trace →
        req.Method = (if r.method = utf8 "" then utf8 "GET" else r.method) ∧ req.URL = E.parseURL r.url
        ∧ req.Body = r.body
        ∧ (∀ resp, E.Do req = .ok resp →
            (r.Execute E).response = some { Response := resp, hasRead := false }
            ∧ (r.Execute E).err = none)
        ∧ (∀ e, E.Do req = .error e →
            (r.Execute E).response = none ∧ (r.Execute E).err = some e))
    ∧ (E.reject (if r.method = utf8 "" then utf8 "GET" else r.method) r.url = none →
        ∃ req, (r.Execute E).trace = [.newRequest (if r.method = utf8 "" then utf8 "GET" else r.method) r.url r.body, .send req])
    ∧ (∀ e, E.reject (if r.method = utf8 "" then utf8 "GET" else r.method) r.url = some e →
        r.Execute E =
          { response := none, err := some e, trace := [.newRequest (if r.method = utf8 "" then utf8 "GET" else r.method) r.url r.body] }) := by
  rw [execute_cases E r h]
  cases hrej : E.reject (if r.method = utf8 "" then utf8 "GET" else r.method) r.url with
  | some e => simp
  | none =>
    cases hdo : E.Do { Method := (if r.method = utf8 "" then utf8 "GET" else r.method), URL := E.parseURL r.url,
                       Header := r.headers.foldl
                         (fun hd p => hd.Set E.canonicalKey p.1 p.2) Header.empty,
                       Body := r.body } with
    | error e =>
      simp only [List.mem_cons, List.mem_singleton, List.mem_nil_iff, or_false,
        NetEvent.newRequest.injEq, NetEvent.send.injEq, false_or, or_false, reduceCtorEq]
      refine ⟨fun m u b hm => hm, ?_, fun _ => ⟨_, rfl⟩, fun e he => by simp at he⟩
      rintro req rfl
      simp [hdo]
    | ok resp =>
      simp only [List.mem_cons, List.mem_singleton, List.mem_nil_iff, or_false,
        NetEvent.newRequest.injEq, NetEvent.send.injEq, false_or, or_false, reduceCtorEq]
      refine ⟨fun m u b hm => hm, ?_, fun _ => ⟨_, rfl⟩, fun e he => by simp at he⟩
      rintro req rfl
      simp [hdo]

theorem execute_sends_builder_state_witness :
    (NewRequest (utf8 "") (utf8 "http://x")).err = none
    ∧ mockEnv.reject (utf8 "GET") (utf8 "http://x") = none
    ∧ (∃ req, ((NewRequest (utf8 "") (utf8 "http://x")).Execute mockEnv).trace
        = [.newRequest (utf8 "GET") (utf8 "http://x") [], .send req])
    ∧ (NewRequest (utf8 "ge t") (utf8 "http://x")).err = none
    ∧ mockEnv.reject (utf8 "GE T") (utf8 "http://x") = some errMethod
    ∧ (NewRequest (utf8 "ge t") (utf8 "http://x")).Execute mockEnv
        = { response := none, err := some errMethod,
            trace := [.newRequest (utf8 "GE T") (utf8 "http://x") []] }
    ∧ NetEvent.send jsonRequestSent ∈ (jsonRequest.Execute mockEnv).trace
    ∧ jsonRequestSent.Method = utf8 "POST"
    ∧ jsonRequestSent.URL = mockEnv.parseURL (utf8 "http://x")
    ∧ jsonRequestSent.Body = (utf8 "\x7b\"a\":1\x7d").bytes := by
  have hmem : NetEvent.send jsonRequestSent ∈ (jsonRequest.Execute mockEnv).trace := by
    decide
  have h := (execute_sends_builder_state mockEnv jsonRequest rfl).2.1 jsonRequestSent hmem
  exact ⟨rfl, rfl,
    (execute_sends_builder_state mockEnv (NewRequest (utf8 "") (utf8 "http://x"))
      rfl).2.2.1 rfl,
    rfl, rfl,
    (execute_sends_builder_state mockEnv (NewRequest (utf8 "ge t") (utf8 "http://x"))
      rfl).2.2.2 errMethod rfl,
    hmem, h.1, h.2.1, h.2.2.1⟩

/-- C4: for a builder with no deferred error, the header map of the request `Execute`
sends is the result of `Set(key, value)` on each stored pair in insertion order: under
every key it holds exactly the value of the last stored pair whose canonical key is that
key, and nothing under a key that is the canonical key of no stored pair. -/
theorem execute_headers_last_write_wins {Val : Type} (E : Env Val) (r : Request)
    (h : r.err = none) :
    (∀ req, NetEvent.send req ∈ (r.Execute E).trace →
        req.Header =
          r.headers.foldl (fun hd p => hd.Set E.canonicalKey p.1 p.2) Header.empty
        ∧ ∀ k, req.Header.lookup k =
            (r.headers.reverse.find? (fun p => decide (E.canonicalKey p.1 = k))).map
              (fun p => [p.2]))
    ∧ (E.reject (if r.method = utf8 "" then utf8 "GET" else r.method) r.url = none → ∃ req, NetEvent.send req ∈ (r.Execute E).trace) := by
  refine ⟨fun req hreq => ?_, fun hrej => ?_⟩
  · have hsent : req.Header =
        r.headers.foldl (fun hd p => hd.Set E.canonicalKey p.1 p.2) Header.empty := by
      rw [trace_send E r h req hreq]
    refine ⟨hsent, fun k => ?_⟩
    rw [hsent, lookup_foldl_Set]
    cases r.headers.reverse.find? (fun p => decide (E.canonicalKey p.1 = k)) with
    | some p => rfl
    | none => rfl
  · rw [trace_accepted E r h hrej]
    exact ⟨_, List.mem_cons_of_mem _ (List.mem_singleton.mpr rfl)⟩

theorem execute_headers_last_write_wins_witness :
    headerRequest.err = none
    ∧ mockEnv.reject (utf8 "GET") (utf8 "http://x") = none
    ∧ (∃ req, NetEvent.send req ∈ (headerRequest.Execute mockEnv).trace)
    ∧ NetEvent.send headerRequestSent ∈ (headerRequest.Execute mockEnv).trace
    ∧ headerRequestSent.Header.lookup (utf8 "Content-Type") = some [utf8 "b"]
    ∧ headerRequestSent.Header.lookup (utf8 "X-Id") = some [utf8 "1"]
    ∧ headerRequestSent.Header.lookup (utf8 "Accept") = none := by
  have hmem : NetEvent.send headerRequestSent ∈ (headerRequest.Execute mockEnv).trace := by
    decide
  have h := ((execute_headers_last_write_wins mockEnv headerRequest rfl).1
    headerRequestSent hmem).2
  exact ⟨rfl, rfl, (execute_headers_last_write_wins mockEnv headerRequest rfl).2 rfl, hmem,
    (h _).trans (by decide), (h _).trans (by decide), (h _).trans (by decide)⟩

/-! ## JSON bodies -/

theorem json_ok {Val : Type} (E : Env Val) (r : Request) (v : Val) (bs : Bytes)
    (hv : E.Marshal v = .ok bs) :
    r.JSON E v =
      { r with headers := r.headers ++ [(utf8 "Content-Type", utf8 "application/json")],
               body := bs } := by
  simp [Request.JSON, Request.Header, Request.Body, hv]

/-- C5: for a builder with no deferred error and a value `v` that serializes to `bs`,
`Execute` after `JSON(v)` passes the body `bs` to `http.NewRequest`, and the request it
sends has the body `bs` and, under the canonical key of `Content-Type`, exactly the value
`application/json`, whatever headers and body the builder held before; such a request is
sent whenever `http.NewRequest` accepts the method and the url. -/
theorem json_then_execute {Val : Type} (E : Env Val) (r : Request) (v : Val) (bs : Bytes)
    (h : r.err = none) (hv : E.Marshal v = .ok bs) :
    (∀ m u b, NetEvent.newRequest m u b ∈ ((r.JSON E v).Execute E).trace → b = bs)
    ∧ (∀ req, NetEvent.send req ∈ ((r.JSON E v).Execute E).trace →
        req.Header.lookup (E.canonicalKey (utf8 "Content-Type"))
          = some [utf8 "application/json"]
        ∧ req.Body = bs)
    ∧ (E.reject (if r.method = utf8 "" then utf8 "GET" else r.method) r.url = none →
        ∃ req, ((r.JSON E v).Execute E).trace = [.newRequest (if r.method = utf8 "" then utf8 "GET" else r.method) r.url bs, .send req]) := by
  have herr : (r.JSON E v).err = none := by rw [json_ok E r v bs hv]; exact h
  have hbody : (r.JSON E v).body = bs := by rw [json_ok E r v bs hv]
  have hurl : (r.JSON E v).url = r.url := by rw [json_ok E r v bs hv]
  have hmeth : (r.JSON E v).method = r.method := by rw [json_ok E r v bs hv]
  have hhead : (r.JSON E v).headers =
      r.headers ++ [(utf8 "Content-Type", utf8 "application/json")] := by
    rw [json_ok E r v bs hv]
  refine ⟨?_, ?_, ?_⟩
  · intro m u b hm
    rw [(trace_newRequest E _ herr m u b hm).2.2, hbody]
  · intro req hreq
    rw [trace_send E _ herr req hreq]
    refine ⟨?_, hbody⟩
    show Header.lookup _ _ = _
    rw [lookup_foldl_Set, hhead]
    simp
  · intro hrej
    have := trace_accepted E (r.JSON E v) herr
    rw [hmeth, hurl, hbody] at this
    exact ⟨_, this hrej⟩

theorem json_then_execute_witness :
    (NewRequest (utf8 "POST") (utf8 "http://x")).err = none
    ∧ mockEnv.Marshal MockValue.mapA1 = .ok (utf8 "\x7b\"a\":1\x7d").bytes
    ∧ mockEnv.reject (utf8 "POST") (utf8 "http://x") = none
    ∧ (∃ req, (jsonRequest.Execute mockEnv).trace =
        [.newRequest (utf8 "POST") (utf8 "http://x") (utf8 "\x7b\"a\":1\x7d").bytes,
         .send req])
    ∧ NetEvent.send jsonRequestSent ∈ (jsonRequest.Execute mockEnv).trace
    ∧ jsonRequestSent.Header.lookup (mockEnv.canonicalKey (utf8 "Content-Type"))
        = some [utf8 "application/json"]
    ∧ jsonRequestSent.Body = (utf8 "\x7b\"a\":1\x7d").bytes := by
  have hmem : NetEvent.send jsonRequestSent ∈ (jsonRequest.Execute mockEnv).trace := by
    decide
  have h := json_then_execute mockEnv (NewRequest (utf8 "POST") (utf8 "http://x"))
    MockValue.mapA1 (utf8 "\x7b\"a\":1\x7d").bytes rfl rfl
  exact ⟨rfl, rfl, rfl, h.2.2 rfl, hmem, (h.2.1 jsonRequestSent hmem).1,
    (h.2.1 jsonRequestSent hmem).2⟩

/-! ## The deferred error is sticky -/

theorem config_err {Val : Type} (E : Env Val) (r : Request) (c : ConfigCall Val) :
    (r.config E c).err =
      match c.jsonError E with
      | some e => some e
      | none => r.err := by
  cases c with
  | JSON content =>
    simp only [Request.config, Request.JSON, ConfigCall.jsonError]
    cases E.Marshal content <;> rfl
  | _ => rfl

theorem configs_err {Val : Type} (E : Env Val) (cs : List (ConfigCall Val)) (r : Request) :
    (r.configs E cs).err =
      match lastJSONError E cs with
      | some e => some e
      | none => r.err := by
  induction cs generalizing r with
  | nil => rfl
  | cons c cs ih =>
    have hstep : r.configs E (c :: cs) = (r.config E c).configs E cs := rfl
    rw [hstep, ih, config_err]
    simp only [lastJSONError]
    cases lastJSONError E cs <;> rfl

/-- C10: no configuration call resets a deferred error (a later `JSON` call with a
serializable value keeps it and still overwrites the body), so after a failing `JSON(v)`
and any further chain of configuration calls `Execute` returns no response, makes no
transport call, and returns the error of the most recent failing `JSON` call: that of
the chain when it has one, that of `JSON(v)` otherwise. -/
theorem deferred_error_sticky {Val : Type} (E : Env Val) (r : Request) (v : Val)
    (e : GoError) (cs : List (ConfigCall Val)) (h : E.Marshal v = .error e) :
    (∀ (c : ConfigCall Val) (r0 : Request), r0.err ≠ none → (r0.config E c).err ≠ none)
    ∧ (∀ (r0 : Request) (w : Val) (bs : Bytes), E.Marshal w = .ok bs →
        (r0.JSON E w).err = r0.err ∧ (r0.JSON E w).body = bs)
    ∧ ((r.JSON E v).configs E cs).err = some ((lastJSONError E cs).getD e)
    ∧ ((r.JSON E v).configs E cs).Execute E =
        { response := none, err := some ((lastJSONError E cs).getD e), trace := [] } := by
  have herr : ((r.JSON E v).configs E cs).err = some ((lastJSONError E cs).getD e) := by
    have hj : (r.JSON E v).err = some e := by simp [Request.JSON, h]
    rw [configs_err, hj]
    cases lastJSONError E cs <;> rfl
  refine ⟨?_, ?_, herr, ?_⟩
  · intro c r0 h0
    rw [config_err]
    cases c.jsonError E with
    | some e1 => simp
    | none => exact h0
  · intro r0 w bs hw
    simp [Request.JSON, Request.Header, Request.Body, hw]
  · simp [Request.Execute, herr]

theorem deferred_error_sticky_witness :
    mockEnv.Marshal MockValue.channel = .error errChan
    ∧ (((Fetch (utf8 "http://x")).JSON mockEnv MockValue.channel).configs mockEnv
          [.Header (utf8 "A") (utf8 "1"), .JSON MockValue.mapA1, .Method (utf8 "post"),
           .Body [7]]).Execute mockEnv
        = { response := none, err := some errChan, trace := [] } :=
  ⟨rfl, (deferred_error_sticky mockEnv (Fetch (utf8 "http://x")) MockValue.channel
    errChan [.Header (utf8 "A") (utf8 "1"), .JSON MockValue.mapA1, .Method (utf8 "post"),
      .Body [7]] rfl).2.2.2⟩

end Requests
